import Mathlib

/-!
Verification of the PulseAI-Insights health-score derivation and
ML-prediction orchestration pipeline.

The development shallowly embeds the server-side core of the repository:

* `server/health-score.ts` — `clamp`, `toPercent`,
  `computeHealthScoreFromMetric` (the Metric Normalizer and the Health
  Score Calculator);
* `server/storage.ts` — the storage operations `upsertHealthScore`,
  `getWeeklyMetrics`, `getLatestMlPrediction`, `createMlPredictions`,
  `getLatestTeamHealth`;
* `server/routes.ts` — `buildPayloadForEmployee`, `runMlBatch`, and the
  `POST /api/ml/predict`, `POST /api/ml/predict/:employeeId` and
  `GET /api/team/health` handlers.

Modelling conventions:

* JavaScript numbers that are finite are modelled by `ℚ` (the concrete
  computations proved about here stay well inside exactly-representable
  territory and far from any round-to-nearest boundary, so the IEEE-754
  rounding of the double type does not affect any stated result).  Where a
  claim is about the IEEE special values (NaN, ±Infinity) we use the
  dedicated type `JsNum` which represents a double as either finite
  (a rational) or one of the three special values, together with the
  JavaScript semantics of `<=`, `*`, `Math.min` and `Math.max` on it.
* `Math.round` is round-half-towards-positive-infinity: `⌊x + 1/2⌋`.
* Timestamps (`Date` values, `Date.now()`) are integers in milliseconds.
* The database is modelled as in-memory lists of rows in insertion order;
  `ORDER BY x DESC` is modelled with `List.insertionSort` on the
  corresponding relation.
-/

/-! ### health-score.ts, rational fragment -/

/-- `clamp` from `server/health-score.ts` line 3:
`(value, min = 0, max = 100) => Math.max(min, Math.min(max, value))`.
Every call site in the repository uses the default bounds `0` and `100`,
so the bounds are fixed here. -/
def clamp (value : ℚ) : ℚ := max 0 (min 100 value)

/-- `toPercent` from `server/health-score.ts` lines 5–8, restricted to
finite inputs (for which `Number.isNaN(value)` is `false`):
`value <= 1.5 ? value * 100 : value`. -/
def toPercent (value : ℚ) : ℚ := if value ≤ 3/2 then value * 100 else value

/-- JavaScript `Math.round` on a finite double: round half towards
positive infinity. -/
def jsRound (q : ℚ) : ℤ := ⌊q + 1/2⌋

/-- Row shape of `employee_weekly_metrics` (`shared/schema.ts` lines
46–59) as consumed by the core: the DB-generated `id` and `createdAt`
columns are not read by any modelled operation and are omitted.
`weekStart` is a timestamp in milliseconds; the numeric measurements are
finite doubles, modelled as rationals. -/
structure EmployeeWeeklyMetric where
  employeeId : ℤ
  weekStart : ℤ
  tasksAssigned : ℚ
  tasksCompleted : ℚ
  missedDeadlines : ℚ
  meetingHours : ℚ
  collaborationScore : ℚ
  engagementScore : ℚ
  learningHours : ℚ
  stretchAssignments : ℚ
deriving DecidableEq, Repr

/-- The `InsertHealthScore` payload (`shared/schema.ts` lines 16–24 minus
the serial `id`): four integer scores plus the natural key
`(employeeId, date)`. -/
structure InsertHealthScore where
  employeeId : ℤ
  burnoutRisk : ℤ
  engagementScore : ℤ
  performanceScore : ℤ
  workloadScore : ℤ
  date : ℤ
deriving DecidableEq, Repr

/-- `computeHealthScoreFromMetric` from `server/health-score.ts` lines
10–50, translated clause by clause:
engagement/collaboration are normalized (`clamp (toPercent _)`), the three
counters are floored at `0`, the two ratios are guarded against a zero
denominator, and the three composite scores are computed and clamped
exactly as in the source, with `Math.round` applied to each output
field. -/
def computeHealthScoreFromMetric (metric : EmployeeWeeklyMetric) : InsertHealthScore :=
  let engagementScore := clamp (toPercent metric.engagementScore)
  let collaborationScore := clamp (toPercent metric.collaborationScore)
  let tasksAssigned := max 0 metric.tasksAssigned
  let tasksCompleted := max 0 metric.tasksCompleted
  let missedDeadlines := max 0 metric.missedDeadlines
  let taskCompletionRatio := if 0 < tasksAssigned then tasksCompleted / tasksAssigned else 0
  let deadlineMissRate := if 0 < tasksAssigned then missedDeadlines / tasksAssigned else 0
  let workloadScore := clamp
    ((tasksAssigned / 40) * 70 +
      (metric.meetingHours / 10) * 20 +
      (metric.stretchAssignments / 5) * 10)
  let performanceScore := clamp
    (taskCompletionRatio * 100 * (6/10) +
      engagementScore * (2/10) +
      collaborationScore * (2/10) -
      deadlineMissRate * 100 * (2/10))
  let burnoutRisk := clamp
    (workloadScore * (45/100) +
      deadlineMissRate * 100 * (25/100) +
      (100 - engagementScore) * (2/10) +
      (100 - collaborationScore) * (1/10))
  { employeeId := metric.employeeId
    burnoutRisk := jsRound burnoutRisk
    engagementScore := jsRound engagementScore
    performanceScore := jsRound performanceScore
    workloadScore := jsRound workloadScore
    date := metric.weekStart }

/-! ### health-score.ts with IEEE special values -/

/-- A JavaScript number: either finite (modelled exactly by a rational)
or one of the IEEE-754 special values NaN, `+Infinity`, `-Infinity`. -/
inductive JsNum where
  | nan : JsNum
  | posInf : JsNum
  | negInf : JsNum
  | fin : ℚ → JsNum
deriving DecidableEq, Repr

/-- JavaScript `<=` on numbers: any comparison involving NaN is `false`;
`-Infinity` is below and `+Infinity` above everything else. -/
def jsLe : JsNum → JsNum → Bool
  | .nan, _ => false
  | _, .nan => false
  | .negInf, _ => true
  | _, .negInf => false
  | _, .posInf => true
  | .posInf, _ => false
  | .fin a, .fin b => decide (a ≤ b)

/-- JavaScript multiplication by the literal `100`: NaN and the two
infinities are absorbing (100 is positive), finite values multiply
exactly. -/
def jsMulHundred : JsNum → JsNum
  | .nan => .nan
  | .posInf => .posInf
  | .negInf => .negInf
  | .fin q => .fin (q * 100)

/-- JavaScript `Math.min`: NaN-propagating minimum. -/
def jsMin : JsNum → JsNum → JsNum
  | .nan, _ => .nan
  | _, .nan => .nan
  | .negInf, _ => .negInf
  | _, .negInf => .negInf
  | .posInf, b => b
  | a, .posInf => a
  | .fin a, .fin b => .fin (min a b)

/-- JavaScript `Math.max`: NaN-propagating maximum. -/
def jsMax : JsNum → JsNum → JsNum
  | .nan, _ => .nan
  | _, .nan => .nan
  | .posInf, _ => .posInf
  | _, .posInf => .posInf
  | .negInf, b => b
  | a, .negInf => a
  | .fin a, .fin b => .fin (max a b)

/-- `toPercent` from `server/health-score.ts` lines 5–8 on full
JavaScript numbers: `if (Number.isNaN(value)) return 0;
return value <= 1.5 ? value * 100 : value;`. -/
def toPercentJs (value : JsNum) : JsNum :=
  if value = .nan then .fin 0
  else if jsLe value (.fin (3/2)) then jsMulHundred value else value

/-- `clamp` from `server/health-score.ts` line 3 on full JavaScript
numbers (default bounds): `Math.max(0, Math.min(100, value))`. -/
def clampJs (value : JsNum) : JsNum := jsMax (.fin 0) (jsMin (.fin 100) value)

/-- The Metric Normalizer of the spec: rescale with `toPercent`, then
clamp to `[0, 100]` — the composition applied at both normalization call
sites of `computeHealthScoreFromMetric`
(`server/health-score.ts` lines 11–12). -/
def normalizeJs (value : JsNum) : JsNum := clampJs (toPercentJs value)

/-! ### storage.ts data model -/

/-- Row of the `employees` table (`shared/schema.ts` lines 7–14); the
`joinedAt` column is unused by the modelled code and omitted. -/
structure Employee where
  id : ℤ
  name : String
  role : String
  department : String
  email : String
deriving DecidableEq, Repr

/-- Row of the `health_scores` table (`shared/schema.ts` lines 16–24):
the serial primary key `id` plus the four scores and the natural key
`(employeeId, date)`. -/
structure HealthScoreRow where
  id : ℕ
  employeeId : ℤ
  burnoutRisk : ℤ
  engagementScore : ℤ
  performanceScore : ℤ
  workloadScore : ℤ
  date : ℤ
deriving DecidableEq, Repr

/-- Row of the `employee_ml_predictions` table (`shared/schema.ts` lines
61–76).  The `topFeatures` jsonb column `{burnout, performance, growth}`
is flattened into its three lists; `createdAt` (set by the database to
the insertion time) is a timestamp in milliseconds. -/
structure EmployeeMlPrediction where
  employeeId : ℤ
  windowStart : ℤ
  windowEnd : ℤ
  burnoutRisk : String
  burnoutConfidence : ℚ
  performanceTrend : String
  performanceConfidence : ℚ
  growthPotential : String
  growthConfidence : ℚ
  burnoutTopFeatures : List String
  performanceTopFeatures : List String
  growthTopFeatures : List String
  recommendations : List String
  explanation : String
  createdAt : ℤ
deriving DecidableEq, Repr

/-- The database state used by the modelled operations: each table is a
list of rows in insertion order.  `nextHealthScoreId` models the serial
id sequence of `health_scores` (the only table whose generated ids the
modelled code reads back, in `upsertHealthScore`). -/
structure Storage where
  employees : List Employee
  weeklyMetrics : List EmployeeWeeklyMetric
  healthScores : List HealthScoreRow
  nextHealthScoreId : ℕ
  mlPredictions : List EmployeeMlPrediction
deriving Repr

def emptyStorage : Storage :=
  { employees := [], weeklyMetrics := [], healthScores := [],
    nextHealthScoreId := 0, mlPredictions := [] }

/-! ### storage.ts upsertHealthScore -/

/-- The `WHERE employeeId = e AND date = d` predicate used by
`upsertHealthScore` (`server/storage.ts` line 86). -/
def matchesKey (e d : ℤ) (r : HealthScoreRow) : Bool :=
  decide (r.employeeId = e) && decide (r.date = d)

/-- All stored `health_scores` rows for one `(employeeId, date)` key. -/
def keyRows (s : Storage) (e d : ℤ) : List HealthScoreRow :=
  s.healthScores.filter (matchesKey e d)

/-- The `.set({...})` clause of the update branch of `upsertHealthScore`
(`server/storage.ts` lines 90–97): the four scores and `date` are
overwritten, `id` and `employeeId` are untouched. -/
def applyHealthScoreUpdate (score : InsertHealthScore) (r : HealthScoreRow) : HealthScoreRow :=
  { r with burnoutRisk := score.burnoutRisk,
           engagementScore := score.engagementScore,
           performanceScore := score.performanceScore,
           workloadScore := score.workloadScore,
           date := score.date }

/-- The row inserted by the no-existing-row branch of
`upsertHealthScore` (`server/storage.ts` line 103): the score's values
under the next serial id. -/
def createdHealthScoreRow (score : InsertHealthScore) (s : Storage) : HealthScoreRow :=
  { id := s.nextHealthScoreId, employeeId := score.employeeId,
    burnoutRisk := score.burnoutRisk,
    engagementScore := score.engagementScore,
    performanceScore := score.performanceScore,
    workloadScore := score.workloadScore, date := score.date }

/-- `upsertHealthScore` from `server/storage.ts` lines 83–105: select the
first existing row with the same `(employeeId, date)` (the `.limit(1)`
query, modelled as `List.find?` over insertion order); if one exists,
update — by its `id` — the scores and date in place, otherwise insert a
new row with the next serial id.  Returns the updated/created row and
the new storage state. -/
def upsertHealthScore (score : InsertHealthScore) (s : Storage) :
    HealthScoreRow × Storage :=
  match s.healthScores.find? (matchesKey score.employeeId score.date) with
  | some existing =>
      (applyHealthScoreUpdate score existing,
        { s with healthScores := s.healthScores.map fun r =>
            if r.id = existing.id then applyHealthScoreUpdate score r else r })
  | none =>
      let created := createdHealthScoreRow score s
      (created, { s with healthScores := s.healthScores ++ [created],
                         nextHealthScoreId := s.nextHealthScoreId + 1 })

/-- A sequence of upserts processed in order. -/
def applyUpserts (ops : List InsertHealthScore) (s : Storage) : Storage :=
  ops.foldl (fun st sc => (upsertHealthScore sc st).2) s

/-- The most recently processed upsert for a given key. -/
def lastUpsertFor (ops : List InsertHealthScore) (e d : ℤ) :
    Option InsertHealthScore :=
  (ops.filter fun sc => decide (sc.employeeId = e) && decide (sc.date = d)).getLast?

/-- Well-formedness of the `health_scores` table: serial ids are
distinct and below the sequence counter, and each `(employeeId, date)`
key has at most one row. -/
def hsWF (s : Storage) : Prop :=
  (s.healthScores.map (·.id)).Nodup ∧
  (∀ r ∈ s.healthScores, r.id < s.nextHealthScoreId) ∧
  (∀ e d : ℤ, (keyRows s e d).length ≤ 1)

/-! ### storage.ts query operations used by the ML orchestration -/

/-- `ORDER BY week_start DESC`: `a` precedes `b` when `b.weekStart ≤
a.weekStart`. -/
def metricMoreRecent (a b : EmployeeWeeklyMetric) : Prop :=
  b.weekStart ≤ a.weekStart

instance : DecidableRel metricMoreRecent :=
  fun a b => inferInstanceAs (Decidable (b.weekStart ≤ a.weekStart))

instance : IsTotal EmployeeWeeklyMetric metricMoreRecent :=
  ⟨fun a b => le_total b.weekStart a.weekStart⟩

instance : IsTrans EmployeeWeeklyMetric metricMoreRecent :=
  ⟨fun _ _ _ h1 h2 => le_trans h2 h1⟩

/-- `getWeeklyMetrics` from `server/storage.ts` lines 202–207: the
employee's rows ordered by `weekStart` descending. -/
def getWeeklyMetrics (employeeId : ℤ) (s : Storage) : List EmployeeWeeklyMetric :=
  List.insertionSort metricMoreRecent
    (s.weeklyMetrics.filter fun m => decide (m.employeeId = employeeId))

/-- `ORDER BY created_at DESC` on `employee_ml_predictions`. -/
def predMoreRecent (a b : EmployeeMlPrediction) : Prop :=
  b.createdAt ≤ a.createdAt

instance : DecidableRel predMoreRecent :=
  fun a b => inferInstanceAs (Decidable (b.createdAt ≤ a.createdAt))

/-- `getLatestMlPrediction` from `server/storage.ts` lines 242–249: the
employee's predictions ordered by `createdAt` descending, `limit 1`. -/
def getLatestMlPrediction (employeeId : ℤ) (s : Storage) :
    Option EmployeeMlPrediction :=
  (List.insertionSort predMoreRecent
    (s.mlPredictions.filter fun p => decide (p.employeeId = employeeId))).head?

/-- `createMlPredictions` from `server/storage.ts` lines 251–254: bulk
insert, returning the inserted rows.  (For empty input the source
shortcuts to `[]`, which coincides with appending nothing.) -/
def createMlPredictions (rows : List EmployeeMlPrediction) (s : Storage) :
    List EmployeeMlPrediction × Storage :=
  (rows, { s with mlPredictions := s.mlPredictions ++ rows })

/-- `getEmployee` from `server/storage.ts` lines 60–63. -/
def findEmployee (employeeId : ℤ) (s : Storage) : Option Employee :=
  s.employees.find? fun emp => decide (emp.id = employeeId)

/-! ### routes.ts ML orchestration -/

/-- One element of the `weeks` array of the batch payload
(`server/routes.ts` lines 306–316). -/
structure WeekPayload where
  week_start : ℤ
  tasks_assigned : ℚ
  tasks_completed : ℚ
  missed_deadlines : ℚ
  meeting_hours : ℚ
  collaboration_score : ℚ
  engagement_score : ℚ
  learning_hours : ℚ
  stretch_assignments : ℚ
deriving DecidableEq, Repr

/-- One employee's entry in the batch payload sent to
`POST mlServiceUrl/predict/batch`. -/
structure MlPayload where
  employee_id : ℤ
  weeks : List WeekPayload
deriving DecidableEq, Repr

def toWeekPayload (week : EmployeeWeeklyMetric) : WeekPayload :=
  { week_start := week.weekStart,
    tasks_assigned := week.tasksAssigned,
    tasks_completed := week.tasksCompleted,
    missed_deadlines := week.missedDeadlines,
    meeting_hours := week.meetingHours,
    collaboration_score := week.collaborationScore,
    engagement_score := week.engagementScore,
    learning_hours := week.learningHours,
    stretch_assignments := week.stretchAssignments }

/-- `buildPayloadForEmployee` from `server/routes.ts` lines 300–318:
take the 4 most recent metrics, reverse them into chronological order,
and refuse (`null`) when fewer than 4 weeks exist. -/
def buildPayloadForEmployee (employeeId : ℤ) (s : Storage) : Option MlPayload :=
  let metrics := getWeeklyMetrics employeeId s
  let window := (metrics.take 4).reverse
  if window.length < 4 then none
  else some { employee_id := employeeId, weeks := window.map toWeekPayload }

/-- One result object of the external batch response
(`server/routes.ts` lines 353–370).  The `|| []` / `|| ""` fallbacks of
the source handle absent JSON fields; fields are total here. -/
structure MlResult where
  employee_id : ℤ
  window_start : ℤ
  window_end : ℤ
  burnout_risk : String
  burnout_confidence : ℚ
  performance_trend : String
  performance_confidence : ℚ
  growth_potential : String
  growth_confidence : ℚ
  burnout_top_features : List String
  performance_top_features : List String
  growth_top_features : List String
  recommendations : List String
  explanation : String
deriving DecidableEq, Repr

/-- The external ML service's answer to one `POST predict/batch` call:
a non-2xx status with its response body (`fail`), or a 2xx with
`results`.  The service itself is out of scope and enters as a
function parameter. -/
inductive MlResponse where
  | fail : String → MlResponse
  | ok : List MlResult → MlResponse
deriving DecidableEq, Repr

/-- The mapping from a batch result to an `MlPrediction` row
(`server/routes.ts` lines 353–370); `createdAt` is the database's
insertion timestamp, identified with the orchestration's `now`. -/
def toInsertPrediction (now : ℤ) (result : MlResult) : EmployeeMlPrediction :=
  { employeeId := result.employee_id,
    windowStart := result.window_start,
    windowEnd := result.window_end,
    burnoutRisk := result.burnout_risk,
    burnoutConfidence := result.burnout_confidence,
    performanceTrend := result.performance_trend,
    performanceConfidence := result.performance_confidence,
    growthPotential := result.growth_potential,
    growthConfidence := result.growth_confidence,
    burnoutTopFeatures := result.burnout_top_features,
    performanceTopFeatures := result.performance_top_features,
    growthTopFeatures := result.growth_top_features,
    recommendations := result.recommendations,
    explanation := result.explanation,
    createdAt := now }

/-- The cache gate of `runMlBatch` (`server/routes.ts` lines 326–336):
an employee is fresh when a stored prediction exists and
`now - createdAt < cacheTtlMs`. -/
def isFresh (now cacheTtlMs : ℤ) (s : Storage) (employeeId : ℤ) : Bool :=
  match getLatestMlPrediction employeeId s with
  | some cached => decide (now - cached.createdAt < cacheTtlMs)
  | none => false

/-- Everything observable about one `runMlBatch` invocation: the fields
of its returned object, the storage afterwards, and `call` — the
`employees` array of the single `fetch` to `mlServiceUrl/predict/batch`,
or `none` when no fetch happens. -/
structure BatchRun where
  ok : Bool
  processed : ℕ
  saved : ℕ
  skipped : ℕ
  detail : String
  store : Storage
  call : Option (List MlPayload)

/-- `runMlBatch` from `server/routes.ts` lines 320–374.  The sequential
cache-gate loop (no writes happen during it) is rendered as the two
filters `recentlyCached` / `toPredict`; `cacheTtlMs` is the parsed
`ML_PREDICTION_CACHE_TTL_MS` (default 300000). -/
def runMlBatch (ml : List MlPayload → MlResponse) (now cacheTtlMs : ℤ)
    (batchPayload : List MlPayload) (s : Storage) : BatchRun :=
  let recentlyCached :=
    batchPayload.filter fun p => isFresh now cacheTtlMs s p.employee_id
  let toPredict :=
    batchPayload.filter fun p => ! isFresh now cacheTtlMs s p.employee_id
  if toPredict = [] then
    { ok := true, processed := 0, saved := 0, skipped := recentlyCached.length,
      detail := "", store := s, call := none }
  else
    match ml toPredict with
    | .fail detail =>
        { ok := false, processed := 0, saved := 0, skipped := 0,
          detail := detail, store := s, call := some toPredict }
    | .ok results =>
        let predictions := results.map (toInsertPrediction now)
        let savedPair := createMlPredictions predictions s
        { ok := true, processed := predictions.length,
          saved := savedPair.1.length, skipped := recentlyCached.length,
          detail := "", store := savedPair.2, call := some toPredict }

/-- The JSON body and status of a `POST /api/ml/predict` response. -/
structure PredictResponse where
  status : ℕ
  processed : ℕ
  skipped : ℕ
  predictionsSaved : ℕ
  detail : String
deriving DecidableEq, Repr

/-- A handler run: its response, the storage afterwards, and the
external call it made (if any). -/
structure PredictOutcome where
  response : PredictResponse
  store : Storage
  call : Option (List MlPayload)

/-- The `employeeId`-query branch of the `POST /api/ml/predict` handler
(`server/routes.ts` lines 376–394).  Note line 393: on success the
response's `skipped` is the literal `0`, not `result.skipped`. -/
def mlPredictByQuery (ml : List MlPayload → MlResponse) (now cacheTtlMs : ℤ)
    (employeeId : ℤ) (s : Storage) : PredictOutcome :=
  match findEmployee employeeId s with
  | none => { response := ⟨404, 0, 0, 0, ""⟩, store := s, call := none }
  | some _ =>
    match buildPayloadForEmployee employeeId s with
    | none => { response := ⟨200, 0, 1, 0, ""⟩, store := s, call := none }
    | some payload =>
      let result := runMlBatch ml now cacheTtlMs [payload] s
      if result.ok then
        { response := ⟨200, result.processed, 0, result.saved, ""⟩,
          store := result.store, call := result.call }
      else
        { response := ⟨502, 0, 0, 0, result.detail⟩,
          store := result.store, call := result.call }

/-- The `POST /api/ml/predict/:employeeId` handler
(`server/routes.ts` lines 421–437); here the success response's
`skipped` is `result.skipped || 0`. -/
def mlPredictOne (ml : List MlPayload → MlResponse) (now cacheTtlMs : ℤ)
    (employeeId : ℤ) (s : Storage) : PredictOutcome :=
  match findEmployee employeeId s with
  | none => { response := ⟨404, 0, 0, 0, ""⟩, store := s, call := none }
  | some _ =>
    match buildPayloadForEmployee employeeId s with
    | none => { response := ⟨200, 0, 1, 0, ""⟩, store := s, call := none }
    | some payload =>
      let result := runMlBatch ml now cacheTtlMs [payload] s
      if result.ok then
        { response := ⟨200, result.processed, result.skipped, result.saved, ""⟩,
          store := result.store, call := result.call }
      else
        { response := ⟨502, 0, 0, 0, result.detail⟩,
          store := result.store, call := result.call }

/-- The per-employee loop of the all-employees branch
(`server/routes.ts` lines 396–407): `skipped` counts the employees whose
payload is `null` and the others' payloads are collected in order. -/
def insufficientCount (s : Storage) : ℕ :=
  (s.employees.filter fun emp => (buildPayloadForEmployee emp.id s).isNone).length

def allPayloads (s : Storage) : List MlPayload :=
  s.employees.filterMap fun emp => buildPayloadForEmployee emp.id s

/-- The all-employees branch of the `POST /api/ml/predict` handler
(`server/routes.ts` lines 396–418). -/
def mlPredictAll (ml : List MlPayload → MlResponse) (now cacheTtlMs : ℤ)
    (s : Storage) : PredictOutcome :=
  let skipped := insufficientCount s
  let batchPayload := allPayloads s
  if batchPayload = [] then
    { response := ⟨200, 0, skipped, 0, ""⟩, store := s, call := none }
  else
    let result := runMlBatch ml now cacheTtlMs batchPayload s
    if result.ok then
      { response := ⟨200, result.processed, skipped + result.skipped,
          result.saved, ""⟩,
        store := result.store, call := result.call }
    else
      { response := ⟨502, 0, 0, 0, result.detail⟩,
        store := result.store, call := result.call }

/-- A placeholder weekly metric row for concrete runs. -/
def demoMetric (eid w : ℤ) : EmployeeWeeklyMetric :=
  { employeeId := eid, weekStart := w, tasksAssigned := 20,
    tasksCompleted := 18, missedDeadlines := 1, meetingHours := 5,
    collaborationScore := 1, engagementScore := 1, learningHours := 2,
    stretchAssignments := 1 }

/-- A placeholder employee row for concrete runs. -/
def demoEmployee (eid : ℤ) : Employee :=
  { id := eid, name := "Alice", role := "Engineer",
    department := "Engineering", email := "alice@pulse.ai" }

/-- A placeholder stored prediction for concrete runs. -/
def demoPrediction (eid created : ℤ) : EmployeeMlPrediction :=
  { employeeId := eid, windowStart := 0, windowEnd := 0, burnoutRisk := "Low",
    burnoutConfidence := 1, performanceTrend := "Stable",
    performanceConfidence := 1, growthPotential := "Steady",
    growthConfidence := 1, burnoutTopFeatures := [],
    performanceTopFeatures := [], growthTopFeatures := [],
    recommendations := [], explanation := "", createdAt := created }

/-- One employee with exactly 4 stored weeks and no stored
predictions. -/
def windowDemoStore : Storage :=
  { employees := [demoEmployee 1],
    weeklyMetrics := [demoMetric 1 1, demoMetric 1 2, demoMetric 1 3, demoMetric 1 4],
    healthScores := [], nextHealthScoreId := 0, mlPredictions := [] }

/-- The payload built for employee 1 of `windowDemoStore`: the four
weeks in chronological order. -/
def windowDemoPayload : MlPayload :=
  { employee_id := 1,
    weeks := [demoMetric 1 1, demoMetric 1 2, demoMetric 1 3,
      demoMetric 1 4].map toWeekPayload }

/-- One employee with only 3 stored weeks. -/
def shortDemoStore : Storage :=
  { employees := [demoEmployee 1],
    weeklyMetrics := [demoMetric 1 1, demoMetric 1 2, demoMetric 1 3],
    healthScores := [], nextHealthScoreId := 0, mlPredictions := [] }

/-- One employee with 4 stored weeks and a prediction created 10 s
before `now = 1000000` (TTL 300000 ms — fresh). -/
def gateStore : Storage :=
  { employees := [demoEmployee 1],
    weeklyMetrics := [demoMetric 1 1, demoMetric 1 2, demoMetric 1 3, demoMetric 1 4],
    healthScores := [], nextHealthScoreId := 0,
    mlPredictions := [demoPrediction 1 990000] }

/-! ### Team health (storage.ts getLatestTeamHealth + routes.ts handler) -/

/-- The aggregate returned by `getLatestTeamHealth`
(`server/storage.ts` lines 107–138). -/
structure TeamHealthAggregate where
  burnoutRisk : ℤ
  engagementScore : ℤ
  performanceScore : ℤ
  workloadScore : ℤ
deriving DecidableEq, Repr

/-- The `WHERE date >= sevenDaysAgo` query of `getLatestTeamHealth`:
`sevenDaysAgo` is `new Date()` moved back 7 calendar days via
`setDate`, i.e. `now − 7·86400000` ms (exact under the UTC clock the
service runs on). -/
def recentScores (now : ℤ) (s : Storage) : List HealthScoreRow :=
  s.healthScores.filter fun r => decide (now - 7 * 86400000 ≤ r.date)

/-- `getLatestTeamHealth` from `server/storage.ts` lines 107–138: the
all-zero aggregate when no row is dated within the trailing 7 days,
otherwise the `Math.round`ed arithmetic mean of each field over all
qualifying rows (pooled across employees). -/
def getLatestTeamHealth (now : ℤ) (s : Storage) : TeamHealthAggregate :=
  let recent := recentScores now s
  if recent.length = 0 then ⟨0, 0, 0, 0⟩
  else
    { burnoutRisk :=
        jsRound (((recent.map (·.burnoutRisk)).sum : ℚ) / recent.length),
      engagementScore :=
        jsRound (((recent.map (·.engagementScore)).sum : ℚ) / recent.length),
      performanceScore :=
        jsRound (((recent.map (·.performanceScore)).sum : ℚ) / recent.length),
      workloadScore :=
        jsRound (((recent.map (·.workloadScore)).sum : ℚ) / recent.length) }

/-- The status-label and overall-score part of the
`GET /api/team/health` response (`server/routes.ts` lines 451–493).
The `trendData` series (lines 456–471) is independent of these fields
and not modelled — no claim constrains it. -/
structure TeamHealthResponse where
  healthScore : ℤ
  burnoutRisk : String
  growthPotential : String
  engagementHealth : String
deriving DecidableEq, Repr

/-- The `GET /api/team/health` handler's aggregate snapshot
(`server/routes.ts` lines 474–492): label thresholds exactly as in the
source's if/else chains, `healthScore` the rounded mean of engagement
and performance. -/
def teamHealthHandler (now : ℤ) (s : Storage) : TeamHealthResponse :=
  let health := getLatestTeamHealth now s
  { healthScore :=
      jsRound (((health.engagementScore : ℚ) + (health.performanceScore : ℚ)) / 2),
    burnoutRisk :=
      if 70 < health.burnoutRisk then "High"
      else if 40 < health.burnoutRisk then "Medium"
      else "Low",
    growthPotential :=
      if 80 < health.performanceScore ∧ 80 < health.engagementScore then "Emerging"
      else if health.performanceScore < 50 then "Stalled"
      else "Steady",
    engagementHealth :=
      if 80 < health.workloadScore then "Overloaded"
      else if health.engagementScore < 40 then "Disconnected"
      else "Balanced" }

/-! ### Bounds lemmas for the calculator -/

theorem clamp_nonneg (q : ℚ) : 0 ≤ clamp q := le_max_left 0 _

theorem clamp_le_hundred (q : ℚ) : clamp q ≤ 100 := by
  unfold clamp
  rcases le_total 0 (min 100 q) with h | h
  · rw [max_eq_right h]; exact min_le_left _ _
  · rw [max_eq_left h]; norm_num

theorem jsRound_nonneg {q : ℚ} (h : 0 ≤ q) : 0 ≤ jsRound q := by
  unfold jsRound
  have : (0 : ℚ) ≤ q + 1/2 := by linarith
  exact Int.floor_nonneg.mpr this

theorem jsRound_le_hundred {q : ℚ} (h : q ≤ 100) : jsRound q ≤ 100 := by
  unfold jsRound
  have h2 : q + 1/2 ≤ 201/2 := by linarith
  have h3 : ⌊q + 1/2⌋ ≤ ⌊(201/2 : ℚ)⌋ := Int.floor_le_floor h2
  have h4 : ⌊(201/2 : ℚ)⌋ = 100 := by
    rw [Int.floor_eq_iff] ; norm_num
  rw [h4] at h3
  exact h3

/-- C1: on the spec's end-to-end example metric (tasksAssigned 20,
tasksCompleted 18, missedDeadlines 1, meetingHours 5, collaborationScore
0.8, engagementScore 0.75, learningHours 2, stretchAssignments 1) the
calculator produces workloadScore 47, performanceScore 84, burnoutRisk 29
and engagementScore 75, carrying `employeeId` and `weekStart` through
unchanged. -/
theorem computeHealthScore_example (eid ws : ℤ) :
    computeHealthScoreFromMetric
      { employeeId := eid, weekStart := ws, tasksAssigned := 20,
        tasksCompleted := 18, missedDeadlines := 1, meetingHours := 5,
        collaborationScore := 8/10, engagementScore := 75/100,
        learningHours := 2, stretchAssignments := 1 } =
      { employeeId := eid, burnoutRisk := 29, engagementScore := 75,
        performanceScore := 84, workloadScore := 47, date := ws } := by
  simp only [computeHealthScoreFromMetric, clamp, toPercent, jsRound]
  norm_num

/-- C2: for every metric (all numeric fields finite, i.e. arbitrary
rationals), each of the four output score fields of
`computeHealthScoreFromMetric` is an integer in `[0, 100]`. -/
theorem computeHealthScore_bounded (metric : EmployeeWeeklyMetric) :
    (0 ≤ (computeHealthScoreFromMetric metric).burnoutRisk ∧
      (computeHealthScoreFromMetric metric).burnoutRisk ≤ 100) ∧
    (0 ≤ (computeHealthScoreFromMetric metric).engagementScore ∧
      (computeHealthScoreFromMetric metric).engagementScore ≤ 100) ∧
    (0 ≤ (computeHealthScoreFromMetric metric).performanceScore ∧
      (computeHealthScoreFromMetric metric).performanceScore ≤ 100) ∧
    (0 ≤ (computeHealthScoreFromMetric metric).workloadScore ∧
      (computeHealthScoreFromMetric metric).workloadScore ≤ 100) := by
  unfold computeHealthScoreFromMetric
  refine ⟨⟨?_, ?_⟩, ⟨?_, ?_⟩, ⟨?_, ?_⟩, ⟨?_, ?_⟩⟩ <;>
    first
      | exact jsRound_nonneg (clamp_nonneg _)
      | exact jsRound_le_hundred (clamp_le_hundred _)

theorem toPercentJs_fin (q : ℚ) : toPercentJs (.fin q) = .fin (toPercent q) := by
  simp only [toPercentJs, toPercent, jsLe, jsMulHundred]
  split
  · simp_all
  · by_cases h : q ≤ 3/2 <;> simp [h]

theorem clampJs_fin (q : ℚ) : clampJs (.fin q) = .fin (clamp q) := by
  simp [clampJs, clamp, jsMin, jsMax]

/-- C3 (counterexample): the claim says every non-finite input yields
`0`, but the normalizer maps `+Infinity` to `100`: `toPercent` passes
`+Infinity` through (it is not NaN and not `≤ 1.5`) and `clamp` then
yields `Math.max(0, Math.min(100, Infinity)) = 100`. -/
theorem normalizeJs_posInf_ne_zero :
    normalizeJs JsNum.posInf = JsNum.fin 100 ∧ JsNum.fin 100 ≠ JsNum.fin 0 := by
  constructor
  · rfl
  · decide

/-- C3 (amended): for finite `v` the normalizer returns
`clamp (v * 100)` when `v ≤ 1.5` and `clamp v` otherwise; of the
non-finite inputs, NaN and `-Infinity` yield `0` but `+Infinity` yields
`100`. -/
theorem normalizeJs_characterization :
    (∀ q : ℚ, normalizeJs (.fin q) =
      if q ≤ 3/2 then .fin (clamp (q * 100)) else .fin (clamp q)) ∧
    normalizeJs JsNum.nan = JsNum.fin 0 ∧
    normalizeJs JsNum.negInf = JsNum.fin 0 ∧
    normalizeJs JsNum.posInf = JsNum.fin 100 := by
  refine ⟨fun q => ?_, rfl, rfl, rfl⟩
  rw [normalizeJs, toPercentJs_fin, clampJs_fin, toPercent]
  by_cases h : q ≤ 3/2 <;> simp [h]

/-- C10: the normalizer is not monotone across the `1.5` threshold:
`1.4 < 1.6` but `normalize 1.4 = 100 > 1.6 = normalize 1.6`, because
values `≤ 1.5` are rescaled by `×100` while values just above the
threshold are kept as-is. -/
theorem normalizeJs_not_monotone :
    (7/5 : ℚ) < 8/5 ∧
    normalizeJs (JsNum.fin (7/5)) = JsNum.fin 100 ∧
    normalizeJs (JsNum.fin (8/5)) = JsNum.fin (8/5) ∧
    ¬ jsLe (normalizeJs (JsNum.fin (7/5))) (normalizeJs (JsNum.fin (8/5))) = true := by
  have h1 : normalizeJs (JsNum.fin (7/5)) = JsNum.fin 100 := by
    rw [normalizeJs, toPercentJs_fin, clampJs_fin]
    norm_num [toPercent, clamp]
  have h2 : normalizeJs (JsNum.fin (8/5)) = JsNum.fin (8/5) := by
    rw [normalizeJs, toPercentJs_fin, clampJs_fin]
    norm_num [toPercent, clamp]
  refine ⟨by norm_num, h1, h2, ?_⟩
  rw [h1, h2]
  simp only [jsLe, decide_eq_true_eq]
  norm_num

/-! ### Generic list lemmas for the upsert proofs -/

theorem eq_singleton_of_mem_of_length_le_one {α : Type} {l : List α} {a : α}
    (ha : a ∈ l) (hl : l.length ≤ 1) : l = [a] := by
  match l, ha, hl with
  | [b], ha, _ => simp at ha; simp [ha]
  | b :: c :: t, _, hl => simp at hl

theorem filter_map_congr {α : Type} (p : α → Bool) (f : α → α) :
    ∀ l : List α, (∀ r ∈ l, f r = r ∨ (p r = false ∧ p (f r) = false)) →
      (l.map f).filter p = l.filter p := by
  intro l
  induction l with
  | nil => simp
  | cons r t ih =>
    intro h
    have hr := h r (by simp)
    have ht : ∀ x ∈ t, f x = x ∨ (p x = false ∧ p (f x) = false) :=
      fun x hx => h x (by simp [hx])
    rcases hr with h1 | ⟨h2, h3⟩
    · by_cases hp : p r
      · simp [List.map_cons, List.filter_cons, h1, hp, ih ht]
      · simp [List.map_cons, List.filter_cons, h1, hp, ih ht]
    · simp [List.map_cons, List.filter_cons, h2, h3, ih ht]

theorem filter_map_single {α : Type} (p : α → Bool) (f : α → α) (ex b : α) :
    ∀ l : List α, l.filter p = [ex] →
      (∀ r ∈ l, p r = false → f r = r) →
      f ex = b →
      p b = true →
      (l.map f).filter p = [b] := by
  intro l
  induction l with
  | nil => intro h; simp at h
  | cons r t ih =>
    intro hfil hfix hfb hpb
    by_cases hp : p r
    · have heq : r :: t.filter p = [ex] := by
        simpa [List.filter_cons, hp] using hfil
      have hrex : r = ex := (List.cons_eq_cons.mp heq).1
      have htnil : t.filter p = [] := (List.cons_eq_cons.mp heq).2
      have htfix : ∀ x ∈ t, f x = x := by
        intro x hx
        have : ¬ p x = true := by
          intro hpx
          have : x ∈ t.filter p := List.mem_filter.mpr ⟨hx, hpx⟩
          simp [htnil] at this
        exact hfix x (by simp [hx]) (by simpa using this)
      have : (t.map f).filter p = t.filter p := by
        refine filter_map_congr p f t ?_
        intro x hx
        exact Or.inl (htfix x hx)
      simp [List.map_cons, List.filter_cons, hrex, hfb, hpb, this, htnil]
    · have hfr : f r = r := hfix r (by simp) (by simpa using hp)
      have hfil' : t.filter p = [ex] := by
        simpa [List.filter_cons, hp] using hfil
      have := ih hfil' (fun x hx => hfix x (by simp [hx])) hfb hpb
      simp [List.map_cons, List.filter_cons, hfr, hp, this]

theorem find?_eq_some_of_filter_singleton {α : Type} (p : α → Bool) (ex : α) :
    ∀ l : List α, l.filter p = [ex] → l.find? p = some ex := by
  intro l
  induction l with
  | nil => intro h; simp at h
  | cons r t ih =>
    intro hfil
    by_cases hp : p r
    · have heq : r :: t.filter p = [ex] := by
        simpa [List.filter_cons, hp] using hfil
      have hrex : r = ex := (List.cons_eq_cons.mp heq).1
      subst hrex
      simp [List.find?_cons, hp]
    · have hfil' : t.filter p = [ex] := by
        simpa [List.filter_cons, hp] using hfil
      simp [List.find?_cons, hp, ih hfil']

/-! ### upsertHealthScore key lemmas -/

theorem matchesKey_applyUpdate (sc : InsertHealthScore) (r : HealthScoreRow)
    (e d : ℤ) :
    matchesKey e d (applyHealthScoreUpdate sc r) =
      (decide (r.employeeId = e) && decide (sc.date = d)) := by
  simp [matchesKey, applyHealthScoreUpdate]

theorem applyUpdate_id (sc : InsertHealthScore) (r : HealthScoreRow) :
    (applyHealthScoreUpdate sc r).id = r.id := rfl

/-- Insert branch: when no row with the key exists, `upsertHealthScore`
appends a fresh row carrying the score's values and the next serial
id. -/
theorem upsert_key_insert (sc : InsertHealthScore) (s : Storage)
    (h : keyRows s sc.employeeId sc.date = []) :
    (upsertHealthScore sc s).1 = createdHealthScoreRow sc s ∧
    (upsertHealthScore sc s).2.healthScores =
      s.healthScores ++ [(upsertHealthScore sc s).1] ∧
    (upsertHealthScore sc s).2.nextHealthScoreId = s.nextHealthScoreId + 1 ∧
    keyRows ((upsertHealthScore sc s).2) sc.employeeId sc.date =
      [(upsertHealthScore sc s).1] := by
  have hnone : s.healthScores.find? (matchesKey sc.employeeId sc.date) = none := by
    rw [List.find?_eq_none]
    intro x hx hpx
    have : x ∈ keyRows s sc.employeeId sc.date := List.mem_filter.mpr ⟨hx, hpx⟩
    simp [h] at this
  have hstep : upsertHealthScore sc s =
      (createdHealthScoreRow sc s,
        { s with healthScores := s.healthScores ++ [createdHealthScoreRow sc s],
                 nextHealthScoreId := s.nextHealthScoreId + 1 }) := by
    unfold upsertHealthScore
    rw [hnone]
  rw [hstep]
  refine ⟨rfl, rfl, rfl, ?_⟩
  unfold keyRows at h ⊢
  simp only [List.filter_append, h, List.nil_append]
  simp [matchesKey, createdHealthScoreRow]

/-- Update branch: when the (unique, by well-formedness) row with the
key exists, `upsertHealthScore` rewrites that row in place — same `id` —
and the key's rows afterwards are exactly the updated row. -/
theorem upsert_key_update (sc : InsertHealthScore) (s : Storage)
    (hWF : hsWF s) (ex : HealthScoreRow)
    (h : keyRows s sc.employeeId sc.date = [ex]) :
    (upsertHealthScore sc s).1 = applyHealthScoreUpdate sc ex ∧
    (upsertHealthScore sc s).2.healthScores =
      s.healthScores.map (fun r =>
        if r.id = ex.id then applyHealthScoreUpdate sc r else r) ∧
    (upsertHealthScore sc s).2.nextHealthScoreId = s.nextHealthScoreId ∧
    keyRows ((upsertHealthScore sc s).2) sc.employeeId sc.date =
      [applyHealthScoreUpdate sc ex] := by
  have hfind : s.healthScores.find? (matchesKey sc.employeeId sc.date) = some ex :=
    find?_eq_some_of_filter_singleton _ ex _ h
  have hexmem : ex ∈ s.healthScores := List.mem_of_find?_eq_some hfind
  have hexkey : matchesKey sc.employeeId sc.date ex = true := List.find?_some hfind
  have hexe : ex.employeeId = sc.employeeId := by
    simp [matchesKey] at hexkey; exact hexkey.1
  have hstep : upsertHealthScore sc s =
      (applyHealthScoreUpdate sc ex,
        { s with healthScores := s.healthScores.map fun r =>
            if r.id = ex.id then applyHealthScoreUpdate sc r else r }) := by
    unfold upsertHealthScore
    rw [hfind]
  rw [hstep]
  refine ⟨rfl, rfl, rfl, ?_⟩
  unfold keyRows at h ⊢
  dsimp only
  refine filter_map_single _ _ ex (applyHealthScoreUpdate sc ex) _ h ?_ ?_ ?_
  · intro r hr hpr
    have hne : ¬ r.id = ex.id := by
      intro hid
      have : r = ex :=
        List.inj_on_of_nodup_map hWF.1 hr hexmem hid
      rw [this] at hpr
      rw [hexkey] at hpr
      exact absurd hpr (by simp)
    simp [hne]
  · simp
  · simp [matchesKey_applyUpdate, hexe]

/-- Rows under any other key are untouched by an upsert. -/
theorem upsert_other_key (sc : InsertHealthScore) (s : Storage)
    (hWF : hsWF s) (e d : ℤ) (hne : ¬ (e = sc.employeeId ∧ d = sc.date)) :
    keyRows ((upsertHealthScore sc s).2) e d = keyRows s e d := by
  have hkeyoff : ∀ r : HealthScoreRow, r.employeeId = sc.employeeId →
      r.date = sc.date → matchesKey e d r = false := by
    intro r h1 h2
    simp only [matchesKey, h1, h2]
    by_cases he : sc.employeeId = e
    · by_cases hd : sc.date = d
      · exact absurd ⟨he.symm, hd.symm⟩ hne
      · simp [hd]
    · simp [he]
  cases hfind : s.healthScores.find? (matchesKey sc.employeeId sc.date) with
  | none =>
    have hstep : (upsertHealthScore sc s).2.healthScores =
        s.healthScores ++ [createdHealthScoreRow sc s] := by
      unfold upsertHealthScore
      rw [hfind]
    unfold keyRows
    rw [hstep]
    simp only [List.filter_append]
    have hcf : matchesKey e d (createdHealthScoreRow sc s) = false :=
      hkeyoff _ rfl rfl
    simp [hcf]
  | some ex =>
    have hexmem : ex ∈ s.healthScores := List.mem_of_find?_eq_some hfind
    have hexkey : matchesKey sc.employeeId sc.date ex = true := List.find?_some hfind
    have hexe : ex.employeeId = sc.employeeId ∧ ex.date = sc.date := by
      simpa [matchesKey] using hexkey
    have hstep : upsertHealthScore sc s =
        (applyHealthScoreUpdate sc ex,
          { s with healthScores := s.healthScores.map fun r =>
              if r.id = ex.id then applyHealthScoreUpdate sc r else r }) := by
      unfold upsertHealthScore
      rw [hfind]
    rw [hstep]
    unfold keyRows
    dsimp only
    refine filter_map_congr _ _ _ ?_
    intro r hr
    by_cases hid : r.id = ex.id
    · have hrex : r = ex :=
        List.inj_on_of_nodup_map hWF.1 hr hexmem hid
      subst hrex
      refine Or.inr ⟨hkeyoff r hexe.1 hexe.2, ?_⟩
      simp [hid, matchesKey_applyUpdate]
      by_cases he : r.employeeId = e
      · have : sc.employeeId = e := hexe.1 ▸ he
        by_cases hd : sc.date = d
        · exact absurd ⟨this.symm, hd.symm⟩ hne
        · simp [hd]
      · simp [he]
    · simp [hid]

/-- One upsert preserves well-formedness of the `health_scores` table. -/
theorem upsert_preserves_WF (sc : InsertHealthScore) (s : Storage)
    (hWF : hsWF s) : hsWF ((upsertHealthScore sc s).2) := by
  have hlen := hWF.2.2 sc.employeeId sc.date
  cases hk : keyRows s sc.employeeId sc.date with
  | nil =>
    obtain ⟨h1, h2, h3, h4⟩ := upsert_key_insert sc s hk
    refine ⟨?_, ?_, ?_⟩
    · rw [h2, h1, List.map_append, List.nodup_append]
      refine ⟨hWF.1, List.nodup_singleton _, ?_⟩
      intro a ha hb
      simp [createdHealthScoreRow] at hb
      obtain ⟨r, hr, hra⟩ := List.mem_map.mp ha
      have := hWF.2.1 r hr
      omega
    · intro r hr
      rw [h2, h1] at hr
      rw [h3]
      rcases List.mem_append.mp hr with hold | hnew
      · have := hWF.2.1 r hold
        omega
      · simp at hnew
        rw [hnew]
        simp [createdHealthScoreRow]
    · intro e d
      by_cases hsame : e = sc.employeeId ∧ d = sc.date
      · obtain ⟨he, hd⟩ := hsame
        subst he; subst hd
        rw [h4]
        simp
      · rw [upsert_other_key sc s hWF e d hsame]
        exact hWF.2.2 e d
  | cons ex tl =>
    have htl : tl = [] := by
      rw [hk] at hlen
      simpa using hlen
    subst htl
    obtain ⟨h1, h2, h3, h4⟩ := upsert_key_update sc s hWF ex hk
    have hidmap : ((s.healthScores.map fun r =>
        if r.id = ex.id then applyHealthScoreUpdate sc r else r).map (·.id)) =
        s.healthScores.map (·.id) := by
      rw [List.map_map]
      refine List.map_congr_left ?_
      intro r hr
      by_cases hid : r.id = ex.id <;> simp [hid, applyUpdate_id]
    refine ⟨?_, ?_, ?_⟩
    · rw [h2, hidmap]
      exact hWF.1
    · intro r hr
      rw [h2] at hr
      rw [h3]
      obtain ⟨r0, hr0, hfr⟩ := List.mem_map.mp hr
      have hb := hWF.2.1 r0 hr0
      have : r.id = r0.id := by
        rw [← hfr]
        by_cases hid : r0.id = ex.id <;> simp [hid, applyUpdate_id]
      omega
    · intro e d
      by_cases hsame : e = sc.employeeId ∧ d = sc.date
      · obtain ⟨he, hd⟩ := hsame
        subst he; subst hd
        rw [h4]
        simp
      · rw [upsert_other_key sc s hWF e d hsame]
        exact hWF.2.2 e d

theorem applyUpserts_WF (ops : List InsertHealthScore) (s : Storage)
    (hWF : hsWF s) : hsWF (applyUpserts ops s) := by
  induction ops generalizing s with
  | nil => exact hWF
  | cons op t ih =>
    show hsWF (applyUpserts t ((upsertHealthScore op s).2))
    exact ih _ (upsert_preserves_WF op s hWF)

theorem emptyStorage_WF : hsWF emptyStorage := by
  refine ⟨by simp [emptyStorage], ?_, ?_⟩
  · intro r hr
    simp [emptyStorage] at hr
  · intro e d
    simp [keyRows, emptyStorage]

/-- After a sequence of upserts from the empty store, each key holds
exactly the values of its most recent upsert (and nothing if never
upserted). -/
theorem applyUpserts_keyRows (ops : List InsertHealthScore) (e d : ℤ) :
    match lastUpsertFor ops e d with
    | none => keyRows (applyUpserts ops emptyStorage) e d = []
    | some sc => ∃ r, keyRows (applyUpserts ops emptyStorage) e d = [r] ∧
        r.employeeId = e ∧ r.date = d ∧
        r.burnoutRisk = sc.burnoutRisk ∧ r.engagementScore = sc.engagementScore ∧
        r.performanceScore = sc.performanceScore ∧
        r.workloadScore = sc.workloadScore := by
  induction ops using List.reverseRecOn with
  | nil => simp [lastUpsertFor, applyUpserts, keyRows, emptyStorage]
  | append_singleton t op ih =>
    have hfold : applyUpserts (t ++ [op]) emptyStorage =
        (upsertHealthScore op (applyUpserts t emptyStorage)).2 := by
      simp [applyUpserts, List.foldl_append]
    have hWFt : hsWF (applyUpserts t emptyStorage) :=
      applyUpserts_WF t emptyStorage emptyStorage_WF
    by_cases hmatch : op.employeeId = e ∧ op.date = d
    · obtain ⟨he, hd⟩ := hmatch
      have hlast : lastUpsertFor (t ++ [op]) e d = some op := by
        unfold lastUpsertFor
        rw [List.filter_append]
        simp only [List.filter_cons, List.filter_nil, he, hd]
        simp [List.getLast?_concat]
      rw [hlast]
      have hlen := hWFt.2.2 op.employeeId op.date
      cases hk : keyRows (applyUpserts t emptyStorage) op.employeeId op.date with
      | nil =>
        obtain ⟨h1, h2, h3, h4⟩ := upsert_key_insert op (applyUpserts t emptyStorage) hk
        refine ⟨(upsertHealthScore op (applyUpserts t emptyStorage)).1, ?_, ?_⟩
        · rw [hfold, ← he, ← hd]
          exact h4
        · rw [h1]
          simp [createdHealthScoreRow, he, hd]
      | cons ex tl =>
        have htl : tl = [] := by
          rw [hk] at hlen
          simpa using hlen
        subst htl
        obtain ⟨h1, h2, h3, h4⟩ := upsert_key_update op (applyUpserts t emptyStorage) hWFt ex hk
        have hexkey : matchesKey op.employeeId op.date ex = true := by
          have : ex ∈ keyRows (applyUpserts t emptyStorage) op.employeeId op.date := by
            rw [hk]; simp
          exact (List.mem_filter.mp this).2
        have hexe : ex.employeeId = op.employeeId := by
          simp [matchesKey] at hexkey
          exact hexkey.1
        refine ⟨applyHealthScoreUpdate op ex, ?_, ?_⟩
        · rw [hfold, ← he, ← hd]
          exact h4
        · simp [applyHealthScoreUpdate, hexe, he, hd]
    · have hlast : lastUpsertFor (t ++ [op]) e d = lastUpsertFor t e d := by
        unfold lastUpsertFor
        rw [List.filter_append]
        have : (decide (op.employeeId = e) && decide (op.date = d)) = false := by
          by_cases h1 : op.employeeId = e
          · by_cases h2 : op.date = d
            · exact absurd ⟨h1, h2⟩ hmatch
            · simp [h2]
          · simp [h1]
        simp only [List.filter_cons, List.filter_nil, this]
        simp
      have hrows : keyRows (applyUpserts (t ++ [op]) emptyStorage) e d =
          keyRows (applyUpserts t emptyStorage) e d := by
        rw [hfold]
        refine upsert_other_key op (applyUpserts t emptyStorage) hWFt e d ?_
        intro hcon
        exact hmatch ⟨hcon.1.symm, hcon.2.symm⟩
      rw [hlast, hrows]
      exact ih

/-- C6: after any sequence of `upsertHealthScore` operations from the
empty store, (i) every `(employeeId, date)` key has at most one row,
(ii) the key's row carries the values of the most recently processed
upsert for that key, and (iii) a further upsert for an existing key
rewrites that row in place — `applyHealthScoreUpdate` keeps the row's
serial `id` — rather than deleting and recreating it. -/
theorem upsertHealthScore_uniqueness (ops : List InsertHealthScore) (e d : ℤ) :
    (keyRows (applyUpserts ops emptyStorage) e d).length ≤ 1 ∧
    (∀ sc, lastUpsertFor ops e d = some sc →
      ∃ r, keyRows (applyUpserts ops emptyStorage) e d = [r] ∧
        r.employeeId = e ∧ r.date = d ∧
        r.burnoutRisk = sc.burnoutRisk ∧ r.engagementScore = sc.engagementScore ∧
        r.performanceScore = sc.performanceScore ∧
        r.workloadScore = sc.workloadScore) ∧
    (∀ sc r, sc.employeeId = e → sc.date = d →
      keyRows (applyUpserts ops emptyStorage) e d = [r] →
      keyRows ((upsertHealthScore sc (applyUpserts ops emptyStorage)).2) e d =
        [applyHealthScoreUpdate sc r]) ∧
    (∀ sc r, (applyHealthScoreUpdate sc r).id = r.id) := by
  refine ⟨(applyUpserts_WF ops emptyStorage emptyStorage_WF).2.2 e d, ?_, ?_,
    fun sc r => rfl⟩
  · intro sc hlast
    have h := applyUpserts_keyRows ops e d
    rw [hlast] at h
    exact h
  · intro sc r he hd hk
    subst he; subst hd
    exact (upsert_key_update sc (applyUpserts ops emptyStorage)
      (applyUpserts_WF ops emptyStorage emptyStorage_WF) r hk).2.2.2

/-- C6 witness: two upserts for the key `(1, 5)` leave exactly one row,
holding the second upsert's values. -/
theorem upsertHealthScore_uniqueness_witness :
    ∃ r, keyRows (applyUpserts
        [⟨1, 10, 20, 30, 40, 5⟩, ⟨1, 11, 21, 31, 41, 5⟩] emptyStorage) 1 5 = [r] ∧
      r.employeeId = 1 ∧ r.date = 5 ∧
      r.burnoutRisk = 11 ∧ r.engagementScore = 21 ∧
      r.performanceScore = 31 ∧ r.workloadScore = 41 :=
  (upsertHealthScore_uniqueness
      [⟨1, 10, 20, 30, 40, 5⟩, ⟨1, 11, 21, 31, 41, 5⟩] 1 5).2.1
    ⟨1, 11, 21, 31, 41, 5⟩ (by decide)

/-! ### Orchestration lemmas -/

theorem buildPayload_none_iff (employeeId : ℤ) (s : Storage) :
    buildPayloadForEmployee employeeId s = none ↔
      (getWeeklyMetrics employeeId s).length < 4 := by
  unfold buildPayloadForEmployee
  dsimp only
  by_cases h : ((getWeeklyMetrics employeeId s).take 4).reverse.length < 4
  · rw [if_pos h]
    simp only [List.length_reverse, List.length_take] at h
    constructor
    · intro _; omega
    · intro _; rfl
  · rw [if_neg h]
    simp only [List.length_reverse, List.length_take] at h
    constructor
    · intro hc; exact Option.noConfusion hc
    · intro hlen; omega

theorem buildPayload_some_employeeId (employeeId : ℤ) (s : Storage) (p : MlPayload)
    (h : buildPayloadForEmployee employeeId s = some p) :
    p.employee_id = employeeId := by
  unfold buildPayloadForEmployee at h
  dsimp only at h
  by_cases hlt : ((getWeeklyMetrics employeeId s).take 4).reverse.length < 4
  · rw [if_pos hlt] at h
    exact Option.noConfusion h
  · rw [if_neg hlt] at h
    have := Option.some.inj h
    rw [← this]

theorem runMlBatch_single_fresh (ml : List MlPayload → MlResponse)
    (now cacheTtlMs : ℤ) (p : MlPayload) (s : Storage)
    (hf : isFresh now cacheTtlMs s p.employee_id = true) :
    runMlBatch ml now cacheTtlMs [p] s =
      { ok := true, processed := 0, saved := 0, skipped := 1, detail := "",
        store := s, call := none } := by
  unfold runMlBatch
  simp [hf]

theorem runMlBatch_single_stale_call (ml : List MlPayload → MlResponse)
    (now cacheTtlMs : ℤ) (p : MlPayload) (s : Storage)
    (hf : isFresh now cacheTtlMs s p.employee_id = false) :
    (runMlBatch ml now cacheTtlMs [p] s).call = some [p] := by
  unfold runMlBatch
  simp only [List.filter_cons, List.filter_nil, hf, Bool.not_false]
  rw [if_neg (by simp)]
  rw [if_pos trivial]
  cases ml [p] <;> rfl

theorem runMlBatch_call_subset (ml : List MlPayload → MlResponse)
    (now cacheTtlMs : ℤ) (batch : List MlPayload) (s : Storage) :
    ∀ ps, (runMlBatch ml now cacheTtlMs batch s).call = some ps →
      ∀ q ∈ ps, q ∈ batch := by
  unfold runMlBatch
  dsimp only
  by_cases hemp : batch.filter (fun p => ! isFresh now cacheTtlMs s p.employee_id) = []
  · rw [if_pos hemp]
    intro ps hps
    exact absurd hps (by simp)
  · rw [if_neg hemp]
    cases hml : ml (batch.filter fun p => ! isFresh now cacheTtlMs s p.employee_id) with
    | fail detail =>
      intro ps hps q hq
      have : ps = batch.filter fun p => ! isFresh now cacheTtlMs s p.employee_id :=
        (Option.some.inj hps).symm
      rw [this] at hq
      exact (List.mem_filter.mp hq).1
    | ok results =>
      intro ps hps q hq
      have : ps = batch.filter fun p => ! isFresh now cacheTtlMs s p.employee_id :=
        (Option.some.inj hps).symm
      rw [this] at hq
      exact (List.mem_filter.mp hq).1

theorem runMlBatch_fail (ml : List MlPayload → MlResponse)
    (now cacheTtlMs : ℤ) (batch : List MlPayload) (s : Storage) (detail : String)
    (hne : batch.filter (fun p => ! isFresh now cacheTtlMs s p.employee_id) ≠ [])
    (hfail : ml (batch.filter fun p => ! isFresh now cacheTtlMs s p.employee_id) =
      MlResponse.fail detail) :
    runMlBatch ml now cacheTtlMs batch s =
      { ok := false, processed := 0, saved := 0, skipped := 0, detail := detail,
        store := s,
        call := some (batch.filter fun p => ! isFresh now cacheTtlMs s p.employee_id) } := by
  unfold runMlBatch
  dsimp only
  rw [if_neg hne, hfail]

theorem mlPredictByQuery_call (ml : List MlPayload → MlResponse)
    (now cacheTtlMs employeeId : ℤ) (s : Storage) (emp : Employee) (payload : MlPayload)
    (hemp : findEmployee employeeId s = some emp)
    (hpay : buildPayloadForEmployee employeeId s = some payload) :
    (mlPredictByQuery ml now cacheTtlMs employeeId s).call =
      (runMlBatch ml now cacheTtlMs [payload] s).call := by
  unfold mlPredictByQuery
  rw [hemp, hpay]
  dsimp only
  by_cases hok : (runMlBatch ml now cacheTtlMs [payload] s).ok = true
  · rw [if_pos hok]
  · rw [if_neg hok]

theorem mlPredictOne_call (ml : List MlPayload → MlResponse)
    (now cacheTtlMs employeeId : ℤ) (s : Storage) (emp : Employee) (payload : MlPayload)
    (hemp : findEmployee employeeId s = some emp)
    (hpay : buildPayloadForEmployee employeeId s = some payload) :
    (mlPredictOne ml now cacheTtlMs employeeId s).call =
      (runMlBatch ml now cacheTtlMs [payload] s).call := by
  unfold mlPredictOne
  rw [hemp, hpay]
  dsimp only
  by_cases hok : (runMlBatch ml now cacheTtlMs [payload] s).ok = true
  · rw [if_pos hok]
  · rw [if_neg hok]

/-- C9: for an employee whose payload is built (≥ 4 stored weeks), the
payload carries the employee's id and exactly 4 weeks; those weeks are a
prefix `sel` of the descending-sorted metric list (so every remaining
row is no more recent than any selected one), reversed into
chronological oldest-to-newest order; and the sorted list is a
permutation of exactly the employee's stored rows. -/
theorem buildPayload_window (s : Storage) (eid : ℤ) (p : MlPayload)
    (h : buildPayloadForEmployee eid s = some p) :
    p.employee_id = eid ∧
    p.weeks.length = 4 ∧
    (∃ sel rest,
      getWeeklyMetrics eid s = sel ++ rest ∧
      sel.length = 4 ∧
      p.weeks = sel.reverse.map toWeekPayload ∧
      (∀ a ∈ sel, ∀ b ∈ rest, b.weekStart ≤ a.weekStart)) ∧
    (getWeeklyMetrics eid s).Perm
      (s.weeklyMetrics.filter fun m => decide (m.employeeId = eid)) ∧
    p.weeks.Pairwise (fun a b => a.week_start ≤ b.week_start) := by
  have hsort : List.Sorted metricMoreRecent (getWeeklyMetrics eid s) :=
    List.sorted_insertionSort metricMoreRecent _
  have hperm : (getWeeklyMetrics eid s).Perm
      (s.weeklyMetrics.filter fun m => decide (m.employeeId = eid)) :=
    List.perm_insertionSort metricMoreRecent _
  unfold buildPayloadForEmployee at h
  dsimp only at h
  by_cases hlt : ((getWeeklyMetrics eid s).take 4).reverse.length < 4
  · rw [if_pos hlt] at h
    exact absurd h (by simp)
  · rw [if_neg hlt] at h
    have hp := Option.some.inj h
    subst hp
    simp only [List.length_reverse, List.length_take] at hlt
    have hlen4 : ((getWeeklyMetrics eid s).take 4).length = 4 := by
      rw [List.length_take]
      omega
    have hsplit : getWeeklyMetrics eid s =
        (getWeeklyMetrics eid s).take 4 ++ (getWeeklyMetrics eid s).drop 4 :=
      (List.take_append_drop 4 _).symm
    have hpw : List.Pairwise metricMoreRecent
        ((getWeeklyMetrics eid s).take 4 ++ (getWeeklyMetrics eid s).drop 4) := by
      rw [← hsplit]
      exact hsort
    obtain ⟨hpwsel, hpwrest, hcross⟩ := List.pairwise_append.mp hpw
    refine ⟨rfl, ?_, ?_, hperm, ?_⟩
    · simp only [List.length_map, List.length_reverse, hlen4]
    · refine ⟨(getWeeklyMetrics eid s).take 4, (getWeeklyMetrics eid s).drop 4,
        hsplit, hlen4, rfl, ?_⟩
      intro a ha b hb
      exact hcross a ha b hb
    · dsimp only
      rw [List.pairwise_map, List.pairwise_reverse]
      exact hpwsel

/-- C9 witness: the window payload of a concrete 4-week store. -/
theorem buildPayload_window_witness :
    windowDemoPayload.employee_id = 1 ∧ windowDemoPayload.weeks.length = 4 :=
  ⟨(buildPayload_window windowDemoStore 1 windowDemoPayload rfl).1,
    (buildPayload_window windowDemoStore 1 windowDemoPayload rfl).2.1⟩

/-- C5: an employee with fewer than 4 stored weekly metrics never
appears in the external batch call of an all-employees prediction run,
and on a successful (200) response the employee is counted in `skipped`
(`skipped` is at least the number of such employees, which is at least
one). -/
theorem mlPredictAll_insufficient (ml : List MlPayload → MlResponse)
    (now cacheTtlMs : ℤ) (s : Storage) (emp : Employee)
    (hmem : emp ∈ s.employees)
    (hfew : (getWeeklyMetrics emp.id s).length < 4) :
    (∀ ps, (mlPredictAll ml now cacheTtlMs s).call = some ps →
      ∀ q ∈ ps, q.employee_id ≠ emp.id) ∧
    ((mlPredictAll ml now cacheTtlMs s).response.status = 200 →
      1 ≤ insufficientCount s ∧
      insufficientCount s ≤ (mlPredictAll ml now cacheTtlMs s).response.skipped) := by
  have hnone : buildPayloadForEmployee emp.id s = none :=
    (buildPayload_none_iff emp.id s).mpr hfew
  have hpays : ∀ q ∈ allPayloads s, q.employee_id ≠ emp.id := by
    intro q hq hqe
    obtain ⟨emp', hemp', hbuild⟩ := List.mem_filterMap.mp hq
    have hqid : q.employee_id = emp'.id :=
      buildPayload_some_employeeId emp'.id s q hbuild
    have heq : emp'.id = emp.id := by rw [← hqid, hqe]
    rw [heq, hnone] at hbuild
    exact Option.noConfusion hbuild
  have hins : 1 ≤ insufficientCount s := by
    have : emp ∈ s.employees.filter
        (fun e => (buildPayloadForEmployee e.id s).isNone) :=
      List.mem_filter.mpr ⟨hmem, by simp [hnone]⟩
    exact List.length_pos_of_mem this
  unfold mlPredictAll
  dsimp only
  by_cases hb : allPayloads s = []
  · rw [if_pos hb]
    constructor
    · intro ps hps
      exact absurd hps (by simp)
    · intro _
      exact ⟨hins, le_refl _⟩
  · rw [if_neg hb]
    by_cases hok : (runMlBatch ml now cacheTtlMs (allPayloads s) s).ok = true
    · rw [if_pos hok]
      constructor
      · intro ps hps q hq hqe
        have hqb : q ∈ allPayloads s :=
          runMlBatch_call_subset ml now cacheTtlMs (allPayloads s) s ps hps q hq
        exact hpays q hqb hqe
      · intro _
        exact ⟨hins, Nat.le_add_right _ _⟩
    · rw [if_neg hok]
      constructor
      · intro ps hps q hq hqe
        have hqb : q ∈ allPayloads s :=
          runMlBatch_call_subset ml now cacheTtlMs (allPayloads s) s ps hps q hq
        exact hpays q hqb hqe
      · intro hstat
        exact absurd hstat (by simp)

/-- C5 witness: an all-employees run over a store whose only employee
has 3 weeks reports `skipped ≥ 1`. -/
theorem mlPredictAll_insufficient_witness :
    1 ≤ insufficientCount shortDemoStore ∧
    insufficientCount shortDemoStore ≤
      (mlPredictAll (fun _ => MlResponse.ok []) 0 300000
        shortDemoStore).response.skipped :=
  (mlPredictAll_insufficient (fun _ => MlResponse.ok []) 0 300000 shortDemoStore
      (demoEmployee 1) (by simp [shortDemoStore]) (by decide)).2 rfl

/-- C4 (amended): for an existing employee with a built payload, if the
latest stored prediction is fresh (`now - createdAt < TTL`), neither
single-employee handler calls the external service and neither touches
the store; the path-parameter handler reports `skipped = 1` while the
`employeeId`-query handler's response hardcodes `skipped = 0`
(`server/routes.ts` line 393).  If the latest prediction is stale
(`TTL ≤ now - createdAt`), both handlers include the employee's payload
in the external call. -/
theorem mlPredict_cache_gate (ml : List MlPayload → MlResponse)
    (now cacheTtlMs employeeId : ℤ) (s : Storage)
    (emp : Employee) (payload : MlPayload)
    (hemp : findEmployee employeeId s = some emp)
    (hpay : buildPayloadForEmployee employeeId s = some payload) :
    (∀ pred, getLatestMlPrediction employeeId s = some pred →
      now - pred.createdAt < cacheTtlMs →
      (mlPredictByQuery ml now cacheTtlMs employeeId s).call = none ∧
      (mlPredictByQuery ml now cacheTtlMs employeeId s).response =
        ⟨200, 0, 0, 0, ""⟩ ∧
      (mlPredictByQuery ml now cacheTtlMs employeeId s).store = s ∧
      (mlPredictOne ml now cacheTtlMs employeeId s).call = none ∧
      (mlPredictOne ml now cacheTtlMs employeeId s).response =
        ⟨200, 0, 1, 0, ""⟩ ∧
      (mlPredictOne ml now cacheTtlMs employeeId s).store = s) ∧
    (∀ pred, getLatestMlPrediction employeeId s = some pred →
      cacheTtlMs ≤ now - pred.createdAt →
      (mlPredictByQuery ml now cacheTtlMs employeeId s).call = some [payload] ∧
      (mlPredictOne ml now cacheTtlMs employeeId s).call = some [payload]) := by
  have hpid : payload.employee_id = employeeId :=
    buildPayload_some_employeeId employeeId s payload hpay
  constructor
  · intro pred hpred hage
    have hf : isFresh now cacheTtlMs s payload.employee_id = true := by
      unfold isFresh
      rw [hpid, hpred]
      simpa using hage
    have hrun := runMlBatch_single_fresh ml now cacheTtlMs payload s hf
    refine ⟨?_, ?_, ?_, ?_, ?_, ?_⟩ <;>
      simp [mlPredictByQuery, mlPredictOne, hemp, hpay, hrun]
  · intro pred hpred hage
    have hf : isFresh now cacheTtlMs s payload.employee_id = false := by
      unfold isFresh
      rw [hpid, hpred]
      simpa using not_lt.mpr hage
    have hcall := runMlBatch_single_stale_call ml now cacheTtlMs payload s hf
    constructor
    · rw [mlPredictByQuery_call ml now cacheTtlMs employeeId s emp payload hemp hpay]
      exact hcall
    · rw [mlPredictOne_call ml now cacheTtlMs employeeId s emp payload hemp hpay]
      exact hcall

/-- C4 (counterexample): with a fresh cached prediction the
`employeeId`-query handler makes no external call but answers
`{processed: 0, skipped: 0, predictionsSaved: 0}` — the employee is NOT
reported as skipped there (`skipped` is hardcoded to `0` on that path),
contrary to the claim. -/
theorem mlPredict_query_fresh_counterexample :
    (mlPredictByQuery (fun _ => MlResponse.fail "") 1000000 300000 1
        gateStore).call = none ∧
    (mlPredictByQuery (fun _ => MlResponse.fail "") 1000000 300000 1
        gateStore).response = ⟨200, 0, 0, 0, ""⟩ ∧
    ¬ 1 ≤ (mlPredictByQuery (fun _ => MlResponse.fail "") 1000000 300000 1
        gateStore).response.skipped := by
  refine ⟨rfl, rfl, by decide⟩

/-- C4 witness: on the same fresh store, the path-parameter handler does
report the employee as skipped, and no external call is made. -/
theorem mlPredict_cache_gate_witness :
    (mlPredictOne (fun _ => MlResponse.fail "") 1000000 300000 1
        gateStore).response = ⟨200, 0, 1, 0, ""⟩ ∧
    (mlPredictByQuery (fun _ => MlResponse.fail "") 1000000 300000 1
        gateStore).call = none := by
  have h := (mlPredict_cache_gate (fun _ => MlResponse.fail "") 1000000 300000 1
      gateStore (demoEmployee 1) windowDemoPayload rfl rfl).1
    (demoPrediction 1 990000) rfl (by norm_num [demoPrediction])
  exact ⟨h.2.2.2.2.1, h.1⟩

/-- C7: when the external batch endpoint is actually called (some
employee passes the gate) and answers a non-success status, the
all-employees run fails as a 502 carrying the upstream body as `detail`,
and the storage — in particular the `MlPrediction` table — is exactly as
before the call: nothing from the failed batch is persisted. -/
theorem mlPredictAll_upstream_failure (ml : List MlPayload → MlResponse)
    (now cacheTtlMs : ℤ) (s : Storage) (detail : String)
    (hne : (allPayloads s).filter
      (fun p => ! isFresh now cacheTtlMs s p.employee_id) ≠ [])
    (hfail : ml ((allPayloads s).filter
      (fun p => ! isFresh now cacheTtlMs s p.employee_id)) =
      MlResponse.fail detail) :
    (mlPredictAll ml now cacheTtlMs s).response.status = 502 ∧
    (mlPredictAll ml now cacheTtlMs s).response.detail = detail ∧
    (mlPredictAll ml now cacheTtlMs s).store = s ∧
    (mlPredictAll ml now cacheTtlMs s).store.mlPredictions =
      s.mlPredictions := by
  have hb : allPayloads s ≠ [] := by
    intro h
    rw [h] at hne
    simp at hne
  have hrun := runMlBatch_fail ml now cacheTtlMs (allPayloads s) s detail hne hfail
  unfold mlPredictAll
  dsimp only
  rw [if_neg hb, hrun]
  simp

/-- C7 witness: one stale employee, the service answers "boom": the run
is a 502 with detail "boom" and no prediction row is stored. -/
theorem mlPredictAll_upstream_failure_witness :
    (mlPredictAll (fun _ => MlResponse.fail "boom") 0 300000
        windowDemoStore).response.status = 502 ∧
    (mlPredictAll (fun _ => MlResponse.fail "boom") 0 300000
        windowDemoStore).response.detail = "boom" ∧
    (mlPredictAll (fun _ => MlResponse.fail "boom") 0 300000
        windowDemoStore).store.mlPredictions = [] := by
  have h := mlPredictAll_upstream_failure (fun _ => MlResponse.fail "boom")
    0 300000 windowDemoStore "boom" (by decide) rfl
  refine ⟨h.1, h.2.1, ?_⟩
  rw [h.2.2.2]
  rfl

/-- C8 (counterexample): with no HealthScore rows at all, the handler's
labels are "Stalled" and "Disconnected", not the claimed defaults
"Steady" and "Balanced" — the zero aggregate trips the
`performanceScore < 50` and `engagementScore < 40` branches. -/
theorem teamHealth_empty_counterexample :
    (teamHealthHandler 0 emptyStorage).growthPotential = "Stalled" ∧
    (teamHealthHandler 0 emptyStorage).engagementHealth = "Disconnected" ∧
    ("Stalled" : String) ≠ "Steady" ∧
    ("Disconnected" : String) ≠ "Balanced" := by
  refine ⟨rfl, rfl, by decide, by decide⟩

/-- C8 (amended): with no HealthScore rows dated within the trailing
7 days, the aggregate is all-zero and the handler answers
`healthScore = 0` with labels burnoutRisk = "Low",
growthPotential = "Stalled", engagementHealth = "Disconnected". -/
theorem teamHealth_no_recent_rows (now : ℤ) (s : Storage)
    (h : recentScores now s = []) :
    getLatestTeamHealth now s = ⟨0, 0, 0, 0⟩ ∧
    teamHealthHandler now s =
      { healthScore := 0, burnoutRisk := "Low", growthPotential := "Stalled",
        engagementHealth := "Disconnected" } := by
  have hagg : getLatestTeamHealth now s = ⟨0, 0, 0, 0⟩ := by
    unfold getLatestTeamHealth
    rw [h]
    simp
  refine ⟨hagg, ?_⟩
  unfold teamHealthHandler
  rw [hagg]
  have hzero : ((((0 : ℤ) : ℚ)) + (((0 : ℤ) : ℚ))) / 2 = 0 := by norm_num
  simp only [TeamHealthResponse.mk.injEq]
  refine ⟨?_, ?_, ?_, ?_⟩
  · rw [hzero]
    unfold jsRound
    have : (0 : ℚ) + 1/2 = 1/2 := by norm_num
    rw [this]
    rw [Int.floor_eq_iff] ; norm_num
  · norm_num
  · norm_num
  · norm_num

/-- C8 witness: the empty store at time 0. -/
theorem teamHealth_no_recent_rows_witness :
    teamHealthHandler 0 emptyStorage =
      { healthScore := 0, burnoutRisk := "Low", growthPotential := "Stalled",
        engagementHealth := "Disconnected" } :=
  (teamHealth_no_recent_rows 0 emptyStorage rfl).2
